import Mathlib

set_option maxHeartbeats 1000000

/-!
Shallow embedding of `src/packages/kit/src/module/install.ts`, the module
resolution and installation engine of the repository.

Strings are embedded as `List Char` (`Path`).  The external collaborators
(`pathe` path utilities, `node:fs`, the resolver from `../resolve`, the
ESM/CJS loaders from `../internal`) are modelled as an oracle record `Ext`
of pure functions; fallible collaborators return `Except Nat`, a thrown
JavaScript error being an `Except.error` carrying an opaque error id.
JavaScript values that can flow through the `nuxtModule` variable are
modelled by `MValue`; metadata objects are flat association lists.
Every external call the engine makes is recorded in an effect trace
(`List Eff`) returned alongside the result.  The only collaborator call not
modelled is the purely diagnostic `logger.error` line preceding the retained
error rethrow, which carries no control flow.
-/

namespace NuxtKit

abbrev Path := List Char

abbrev Meta := List (String × Int)

abbrev Opts := Nat

/-- Effect trace entries: one entry per call the engine makes to an external
collaborator (the path resolver, the ESM loader, the CJS loader, and the
filesystem existence/read probes). -/
inductive Eff where
  | effResolvePath (p : Path)
  | effImport (p : Path)
  | effRequire (p : Path)
  | effExists (p : Path)
  | effRead (p : Path)
deriving DecidableEq, Repr

/-- Result of `lstatSync`: the only field the source consults is `isFile()`. -/
structure Stat where
  isFile : Bool
deriving DecidableEq, Repr

/-- One entry of `nuxt.options._layers`: `config.srcDir`, `cwd`, and the
optional `config.dir.modules` override. An absent or empty string is falsy
in the source's `||` chains, hence the explicit `Option`/empty encodings. -/
structure Layer where
  srcDir : Path
  cwd : Path
  dirModules : Option Path
deriving DecidableEq, Repr

/-- One entry of the installed-module ledger `nuxt.options._installedModules`. -/
structure InstalledRecord where
  meta : Meta
  timings : Option Nat
  entryPath : Option Path
deriving DecidableEq, Repr

/-- The mutable build context (`nuxt.options`) as far as `install.ts` touches
it.  `_installedModules` is `Option`-valued because the source guards the
ledger push with `nuxt.options._installedModules ||= []`. -/
structure NuxtState where
  layers : List Layer
  transpile : List Path
  modulesDir : List Path
  installedModules : Option (List InstalledRecord)
  isNuxt2 : Bool

/-- The callable's own return value: nullish, exactly `false`, or an object
whose only field the source reads is `timings`. -/
inductive CallResult where
  | rnullish
  | rfalse
  | robj (timings : Option Nat)
deriving DecidableEq, Repr

/-- A Nuxt module callable.  `run b opts st` is the invocation under the
convention selected by `isNuxt2` (`b = true` means the legacy
`moduleContainer`-receiver call); it may throw (`Except.error`) or return a
result together with the build context it has possibly mutated.  `getMeta`
is the optional `getMeta?.()` capability, modelled as pure data. -/
structure ModuleFn where
  run : Bool → Opts → NuxtState → Except Nat (CallResult × NuxtState)
  getMeta : Option Meta

/-- JavaScript values that can inhabit the `nuxtModule` variable: nullish
(`null`/`undefined`), a string, a callable, or any other value carrying just
its truthiness. -/
inductive MValue where
  | vnullish
  | vstr (s : Path)
  | vfn (f : ModuleFn)
  | vmisc (truthy : Bool)

/-- JavaScript truthiness of an `MValue` (a string is falsy iff empty). -/
def truthy : MValue → Bool
  | MValue.vnullish => false
  | MValue.vstr s => !s.isEmpty
  | MValue.vfn _ => true
  | MValue.vmisc t => t

/-- Errors escaping the engine: either a collaborator error propagated
(`ext`), or the `TypeError` thrown by the final callable check, carrying the
offending value. -/
inductive JsError where
  | ext (e : Nat)
  | typeErr (v : MValue)

/-- Oracle record for every external collaborator the source imports:
`pathe` (`isAbsolute`, `dirname`, `join`, `resolve`), `node:fs`
(`lstatSync`, `existsSync`, `readFile`), `JSON.parse`, the path resolver
(`resolvePath`, `resolveAlias`) and the two loaders (`importModule`,
`requireModule`). -/
structure Ext where
  isAbsolute : Path → Bool
  dirname : Path → Path
  join : Path → Path → Path
  resolve2 : Path → Path → Path
  lstat : Path → Except Nat Stat
  existsSync : Path → Bool
  readFile : Path → Except Nat String
  jsonParse : String → Except Nat Meta
  resolvePath : Path → Except Nat Path
  resolveAlias : Path → Path
  importModule : Path → List Path → Except Nat MValue
  requireModule : Path → List Path → Except Nat MValue

def nuxtLit : Path := "nuxt".toList

def moduleLit : Path := "module".toList

def moduleJsonLit : Path := "module.json".toList

def modulesLit : Path := "modules".toList

def NODE_MODULES_SEP : Path := "node_modules/".toList

def NODE_MODULES_WORD : Path := "node_modules".toList

/-- `defu(a, b)` restricted to flat objects: every binding of `a` survives,
and `b` contributes exactly the keys `a` lacks (leftmost argument wins). -/
def defu (a b : Meta) : Meta :=
  a ++ b.filter (fun kv => (a.lookup kv.1).isNone)

/-- `getDirectory` from the source:
`isAbsolute(p) && lstatSync(p).isFile() ? dirname(p) : p`, with the whole
expression wrapped in `try/catch` so that a throwing `lstatSync` yields `p`
unchanged. -/
def getDirectory (ext : Ext) (p : Path) : Path :=
  if ext.isAbsolute p then
    match ext.lstat p with
    | Except.ok st => if st.isFile then ext.dirname p else p
    | Except.error _ => p
  else p

/-- JavaScript `s.split('node_modules/')` on char lists: scan left to right,
cutting at each (leftmost, non-overlapping) occurrence of the separator;
`acc` holds the reversed characters of the piece being built. -/
def splitNodeModulesAux : Path → Path → List Path
  | acc, [] => [acc.reverse]
  | acc, c :: rest =>
    if NODE_MODULES_SEP.isPrefixOf (c :: rest) then
      acc.reverse :: splitNodeModulesAux [] ((c :: rest).drop NODE_MODULES_SEP.length)
    else
      splitNodeModulesAux (c :: acc) rest
termination_by _ s => s.length
decreasing_by
  all_goals simp [List.length_drop]
  · have h13 : NODE_MODULES_SEP.length = 13 := by decide
    omega

def splitNodeModules (s : Path) : List Path := splitNodeModulesAux [] s

/-- `normalizeModuleTranspilePath` from the source:
`getDirectory(p).split('node_modules/').pop()`. -/
def normalizeModuleTranspilePath (ext : Ext) (p : Path) : Path :=
  (splitNodeModules (getDirectory ext p)).getLastD []

/-- Does the separator `node_modules/` occur anywhere in the path? -/
def hasNMOcc : Path → Bool
  | [] => false
  | c :: rest => NODE_MODULES_SEP.isPrefixOf (c :: rest) || hasNMOcc rest

/-- Is `c` one of the two path separators matched by `[/\\]` in the source's
`NODE_MODULES_RE` regular expression? -/
def isPathSep (c : Char) : Bool := c == '/' || c == '\\'

/-- Does `NODE_MODULES_RE` (`/[/\\]node_modules[/\\]/`) match starting at the
head of `s`? -/
def nmBoundaryAt (s : Path) : Bool :=
  match s with
  | c :: rest =>
    isPathSep c && NODE_MODULES_WORD.isPrefixOf rest &&
      (match rest.drop NODE_MODULES_WORD.length with
       | d :: _ => isPathSep d
       | [] => false)
  | [] => false

/-- `NODE_MODULES_RE.test(s)`: the regexp matches at some position of `s`. -/
def nodeModulesReTest : Path → Bool
  | [] => false
  | c :: rest => nmBoundaryAt (c :: rest) || nodeModulesReTest rest

/-- `l.config?.dir?.modules || 'modules'` for one layer. -/
def layerModulesDirName (l : Layer) : Path :=
  match l.dirModules with
  | some d => if d.isEmpty then modulesLit else d
  | none => modulesLit

/-- The `localLayerModuleDirs` set built by `installModule`: for each layer
whose effective source directory (`l.config.srcDir || l.cwd`) is not inside a
vendored directory, `resolve(srcDir, l.config?.dir?.modules || 'modules')`. -/
def localLayerModuleDirs (ext : Ext) (st : NuxtState) : List Path :=
  st.layers.filterMap fun l =>
    let srcDir := if l.srcDir.isEmpty then l.cwd else l.srcDir
    if nodeModulesReTest srcDir then none
    else some (ext.resolve2 srcDir (layerModulesDirName l))

/-- State of the candidate loop in `loadNuxtModuleInstance`: the current
value of the `nuxtModule` variable, the retained `error`, and the
`buildTimeModuleMeta` accumulator. -/
structure LoopSt where
  cur : MValue
  err : Option Nat
  btm : Meta

/-- The candidate loop of `loadNuxtModuleInstance`.  For each candidate path:
`resolvePath` is awaited OUTSIDE the try block (its error is fatal and
returned as `Except.error`); inside the try block the ESM import is
attempted, a rejected or nullish import falls back to the CJS require
(`importModule(src, dirs).catch(() => null) ?? requireModule(src, ...)`),
a successful load assigns the variable, then the sidecar `module.json` is
probed, read and parsed; any throw inside the try block retains the error
and continues with the next candidate; reaching the end of the try block
breaks out of the loop. -/
def runCandidates (ext : Ext) (dirs : List Path) :
    List Path → LoopSt → List Eff → Except Nat LoopSt × List Eff
  | [], ls, tr => (Except.ok ls, tr)
  | path :: rest, ls, tr =>
    match ext.resolvePath path with
    | Except.error e => (Except.error e, tr ++ [Eff.effResolvePath path])
    | Except.ok src =>
      let tr1 := tr ++ [Eff.effResolvePath path, Eff.effImport src]
      let step1 : Except Nat MValue × List Eff :=
        match ext.importModule src dirs with
        | Except.ok MValue.vnullish => (ext.requireModule src dirs, tr1 ++ [Eff.effRequire src])
        | Except.error _ => (ext.requireModule src dirs, tr1 ++ [Eff.effRequire src])
        | Except.ok v => (Except.ok v, tr1)
      match step1 with
      | (Except.error e, tr2) => runCandidates ext dirs rest ⟨ls.cur, some e, ls.btm⟩ tr2
      | (Except.ok v, tr2) =>
        let mpath := ext.join (ext.dirname src) moduleJsonLit
        let tr3 := tr2 ++ [Eff.effExists mpath]
        if ext.existsSync mpath then
          match ext.readFile mpath with
          | Except.error e =>
            runCandidates ext dirs rest ⟨v, some e, ls.btm⟩ (tr3 ++ [Eff.effRead mpath])
          | Except.ok content =>
            match ext.jsonParse content with
            | Except.error e =>
              runCandidates ext dirs rest ⟨v, some e, ls.btm⟩ (tr3 ++ [Eff.effRead mpath])
            | Except.ok m => (Except.ok ⟨v, ls.err, m⟩, tr3 ++ [Eff.effRead mpath])
        else
          (Except.ok ⟨v, ls.err, ls.btm⟩, tr3)

/-- The final contract check of `loadNuxtModuleInstance`: a non-callable
value throws `TypeError('Nuxt module should be a function: ' + nuxtModule)`. -/
def finalizeModule (v : MValue) (btm : Meta) (tr : List Eff) :
    Except JsError (ModuleFn × Meta) × List Eff :=
  match v with
  | MValue.vfn f => (Except.ok (f, btm), tr)
  | v => (Except.error (JsError.typeErr v), tr)

/-- `loadNuxtModuleInstance` from the source.  A string input runs the
candidate loop over `[join(s,'nuxt'), join(s,'module'), s]`; afterwards
`if (!nuxtModule && error) throw error` fires only when the final variable
value is falsy; finally the callable contract is checked.  A non-string
input goes straight to the contract check with empty build-time metadata. -/
def loadNuxtModuleInstance (ext : Ext) (input : MValue) (st : NuxtState) :
    Except JsError (ModuleFn × Meta) × List Eff :=
  match input with
  | MValue.vstr s =>
    match runCandidates ext st.modulesDir
        [ext.join s nuxtLit, ext.join s moduleLit, s]
        ⟨MValue.vstr s, none, []⟩ [] with
    | (Except.error e, tr) => (Except.error (JsError.ext e), tr)
    | (Except.ok ls, tr) =>
      match truthy ls.cur, ls.err with
      | false, some e => (Except.error (JsError.ext e), tr)
      | _, _ => finalizeModule ls.cur ls.btm tr
  | v => finalizeModule v [] []

/-- `installModule` from the source: load the instance, compute the local
layer module directories, invoke the callable under the convention selected
by `isNuxt2`, coalesce a nullish result to `{}`, short-circuit on an exact
`false`, otherwise for a string specifier push the normalized transpile path
and possibly the containing directory, then append the ledger record with
`meta = defu(getMeta?.(), buildTimeModuleMeta)`. -/
def installModule (ext : Ext) (input : MValue) (opts : Opts) (st : NuxtState) :
    Except JsError NuxtState × List Eff :=
  match loadNuxtModuleInstance ext input st with
  | (Except.error e, tr) => (Except.error e, tr)
  | (Except.ok (fn, btm), tr) =>
    let localDirs := localLayerModuleDirs ext st
    match fn.run st.isNuxt2 opts st with
    | Except.error e => (Except.error (JsError.ext e), tr)
    | Except.ok (raw, st1) =>
      let result := match raw with
        | CallResult.rnullish => CallResult.robj none
        | r => r
      match result with
      | CallResult.rfalse => (Except.ok st1, tr)
      | result =>
        let timings := match result with
          | CallResult.robj t => t
          | _ => none
        let st2 := match input with
          | MValue.vstr s =>
            let stA := { st1 with
              transpile := st1.transpile ++ [normalizeModuleTranspilePath ext s] }
            let dir := getDirectory ext s
            if dir ≠ s ∧ localDirs.contains dir = false then
              { stA with modulesDir := stA.modulesDir ++ [dir] }
            else stA
          | _ => st1
        let entryPath := match input with
          | MValue.vstr s => some (ext.resolveAlias s)
          | _ => none
        let entry : InstalledRecord :=
          ⟨defu (fn.getMeta.getD []) btm, timings, entryPath⟩
        (Except.ok { st2 with
          installedModules := some ((st2.installedModules.getD []) ++ [entry]) }, tr)

/-! ### Concrete oracle instances used by witnesses and counterexamples -/

/-- A baseline oracle: relative paths, identity `dirname`, slash-`join`,
identity resolution, all loads failing, no sidecar files. -/
def extBase : Ext where
  isAbsolute := fun _ => false
  dirname := fun p => p
  join := fun a b => a ++ '/' :: b
  resolve2 := fun a b => a ++ '/' :: b
  lstat := fun _ => Except.error 0
  existsSync := fun _ => false
  readFile := fun _ => Except.error 0
  jsonParse := fun _ => Except.error 0
  resolvePath := fun p => Except.ok p
  resolveAlias := fun p => p
  importModule := fun _ _ => Except.error 3
  requireModule := fun _ _ => Except.error 4

def st0 : NuxtState := ⟨[], [], [], none, false⟩

def extC8 : Ext := { extBase with
  isAbsolute := fun _ => true
  lstat := fun _ => Except.error 2 }

/-- An absolute path naming an existing regular file. -/
def extC9File : Ext := { extBase with
  isAbsolute := fun _ => true
  lstat := fun _ => Except.ok ⟨true⟩
  dirname := fun _ => "/proj/node_modules/foo".toList }

/-- An absolute path naming an existing directory. -/
def extC9Dir : Ext := { extBase with
  isAbsolute := fun _ => true
  lstat := fun _ => Except.ok ⟨false⟩ }

/-- An absolute path whose stat probe throws (missing path). -/
def extC9Missing : Ext := { extBase with
  isAbsolute := fun _ => true
  lstat := fun _ => Except.error 2 }

/-- A callable returning an object result with no timings and no runtime
metadata. -/
def mfA : ModuleFn := ⟨fun _ _ st => Except.ok (CallResult.robj none, st), none⟩

/-- A callable returning timings and declaring runtime metadata. -/
def mfB : ModuleFn :=
  ⟨fun _ _ st => Except.ok (CallResult.robj (some 5), st), some [("b", 3)]⟩

/-- A callable aborting installation by returning exactly `false` without
touching the build context. -/
def mfFalse : ModuleFn := ⟨fun _ _ st => Except.ok (CallResult.rfalse, st), none⟩

/-- A callable declaring runtime metadata that overlaps the sidecar
metadata. -/
def mfC5 : ModuleFn :=
  ⟨fun _ _ st => Except.ok (CallResult.robj none, st), some [("b", 3)]⟩

/-- Candidate 1's path resolution fails, while every candidate would load. -/
def extC3 : Ext := { extBase with
  resolvePath := fun p => if p = "m/nuxt".toList then Except.error 7 else Except.ok p
  importModule := fun _ _ => Except.ok (MValue.vfn mfA) }

/-- The path resolver always fails. -/
def extC3w : Ext := { extBase with resolvePath := fun _ => Except.error 7 }

/-- Candidate 1 loads `mfA` but its sidecar exists and fails to parse;
candidate 2 loads `mfB` with no sidecar. -/
def extC2 : Ext := { extBase with
  importModule := fun p _ =>
    if p = "m/nuxt".toList then Except.ok (MValue.vfn mfA) else Except.ok (MValue.vfn mfB)
  existsSync := fun p => p == "m/nuxt/module.json".toList
  readFile := fun _ => Except.ok "bad"
  jsonParse := fun _ => Except.error 5 }

/-- Same shape as `extC2` for the specifier `"w"`. -/
def extC2w : Ext := { extBase with
  importModule := fun p _ =>
    if p = "w/nuxt".toList then Except.ok (MValue.vfn mfA) else Except.ok (MValue.vfn mfB)
  existsSync := fun p => p == "w/nuxt/module.json".toList
  readFile := fun _ => Except.ok "bad"
  jsonParse := fun _ => Except.error 5 }

/-- Candidate 1 fails to load; candidate 2 loads `mfA` with no sidecar. -/
def extC6w : Ext := { extBase with
  importModule := fun p _ =>
    if p = "m/nuxt".toList then Except.error 3 else Except.ok (MValue.vfn mfA) }

/-- The modern import resolves to a nullish value; the legacy require loads
`mfA`. -/
def extC10a : Ext := { extBase with
  importModule := fun _ _ => Except.ok MValue.vnullish
  requireModule := fun _ _ => Except.ok (MValue.vfn mfA) }

/-- Candidate 1's modern import is nullish and its legacy require throws;
candidate 2 loads `mfA`. -/
def extC10b : Ext := { extBase with
  importModule := fun p _ =>
    if p = "m/nuxt".toList then Except.ok MValue.vnullish else Except.ok (MValue.vfn mfA)
  requireModule := fun _ _ => Except.error 9 }

/-- Sidecar metadata `[("a",1),("b",2)]` next to every candidate, each of
which loads `mfC5`. -/
def extC5 : Ext := { extBase with
  importModule := fun _ _ => Except.ok (MValue.vfn mfC5)
  existsSync := fun _ => true
  readFile := fun _ => Except.ok "meta"
  jsonParse := fun _ => Except.ok [("a", 1), ("b", 2)] }

/-! ### Helper lemmas about the split used by `normalizeModuleTranspilePath` -/

theorem isPrefixOf_append_drop :
    ∀ l₁ l₂ : Path, l₁.isPrefixOf l₂ = true → l₂ = l₁ ++ l₂.drop l₁.length
  | [], _, _ => by simp
  | a :: t₁, [], h => by simp [List.isPrefixOf] at h
  | a :: t₁, b :: t₂, h => by
    simp only [List.isPrefixOf, Bool.and_eq_true, beq_iff_eq] at h
    obtain ⟨rfl, h2⟩ := h
    simpa using isPrefixOf_append_drop t₁ t₂ h2

theorem splitNodeModulesAux_ne_nil (acc s : Path) : splitNodeModulesAux acc s ≠ [] := by
  induction acc, s using splitNodeModulesAux.induct with
  | case1 acc => simp [splitNodeModulesAux]
  | case2 acc c rest hpre ih => simp [splitNodeModulesAux, hpre]
  | case3 acc c rest hpre ih => simpa [splitNodeModulesAux, hpre] using ih

theorem splitNodeModulesAux_no_occ :
    ∀ (s : Path), hasNMOcc s = false → ∀ acc : Path,
      splitNodeModulesAux acc s = [acc.reverse ++ s]
  | [], _, acc => by simp [splitNodeModulesAux]
  | c :: rest, h, acc => by
    simp only [hasNMOcc, Bool.or_eq_false_iff] at h
    simp only [splitNodeModulesAux, h.1, if_false]
    rw [splitNodeModulesAux_no_occ rest h.2 (c :: acc)]
    simp

theorem getLastD_irrel {α : Type} {l : List α} (h : l ≠ []) (a b : α) :
    l.getLastD a = l.getLastD b := by
  rw [List.getLastD_eq_getLast?, List.getLastD_eq_getLast?]
  obtain ⟨x, hx⟩ := Option.isSome_iff_exists.mp (List.getLast?_isSome.mpr h)
  rw [hx]
  rfl

theorem splitNodeModulesAux_occ :
    ∀ acc s : Path, hasNMOcc s = true →
      ∃ a, s = a ++ NODE_MODULES_SEP ++ ((splitNodeModulesAux acc s).getLastD []) ∧
        hasNMOcc ((splitNodeModulesAux acc s).getLastD []) = false := by
  intro acc s
  induction acc, s using splitNodeModulesAux.induct with
  | case1 acc => intro h; simp [hasNMOcc] at h
  | case2 acc c rest hpre ih =>
    intro _
    have hsplit : splitNodeModulesAux acc (c :: rest) =
        acc.reverse :: splitNodeModulesAux [] ((c :: rest).drop NODE_MODULES_SEP.length) := by
      simp [splitNodeModulesAux, hpre]
    have hdecomp : c :: rest =
        NODE_MODULES_SEP ++ (c :: rest).drop NODE_MODULES_SEP.length :=
      isPrefixOf_append_drop _ _ hpre
    have hlast : (splitNodeModulesAux acc (c :: rest)).getLastD [] =
        (splitNodeModulesAux [] ((c :: rest).drop NODE_MODULES_SEP.length)).getLastD [] := by
      rw [hsplit, List.getLastD_cons]
      exact getLastD_irrel (splitNodeModulesAux_ne_nil _ _) _ _
    by_cases hocc : hasNMOcc ((c :: rest).drop NODE_MODULES_SEP.length) = true
    · obtain ⟨a, ha, hgood⟩ := ih hocc
      refine ⟨NODE_MODULES_SEP ++ a, ?_, ?_⟩
      · rw [hlast]
        calc c :: rest = NODE_MODULES_SEP ++ (c :: rest).drop NODE_MODULES_SEP.length := hdecomp
          _ = NODE_MODULES_SEP ++ (a ++ NODE_MODULES_SEP ++
              ((splitNodeModulesAux [] ((c :: rest).drop NODE_MODULES_SEP.length)).getLastD [])) := by
              rw [← ha]
          _ = NODE_MODULES_SEP ++ a ++ NODE_MODULES_SEP ++
              ((splitNodeModulesAux [] ((c :: rest).drop NODE_MODULES_SEP.length)).getLastD []) := by
              simp [List.append_assoc]
      · rw [hlast]; exact hgood
    · have hocc' : hasNMOcc ((c :: rest).drop NODE_MODULES_SEP.length) = false := by
        simpa using hocc
      have : splitNodeModulesAux [] ((c :: rest).drop NODE_MODULES_SEP.length) =
          [(c :: rest).drop NODE_MODULES_SEP.length] := by
        simpa using splitNodeModulesAux_no_occ _ hocc' []
      refine ⟨[], ?_, ?_⟩
      · rw [hlast, this]
        simpa using hdecomp
      · rw [hlast, this]
        simpa using hocc'
  | case3 acc c rest hpre ih =>
    intro h
    have hrest : hasNMOcc rest = true := by
      simp only [hasNMOcc, Bool.or_eq_true] at h
      rcases h with h | h
      · exact absurd h hpre
      · exact h
    have hsplit : splitNodeModulesAux acc (c :: rest) = splitNodeModulesAux (c :: acc) rest := by
      simp [splitNodeModulesAux, hpre]
    obtain ⟨a, ha, hgood⟩ := ih hrest
    refine ⟨c :: a, ?_, ?_⟩
    · rw [hsplit]
      rw [List.cons_append, List.cons_append]
      exact congrArg (c :: ·) ha
    · rw [hsplit]; exact hgood


/-! ### Lemmas about the flat `defu` merge -/

theorem lookup_append (k : String) : ∀ a c : Meta,
    (a ++ c).lookup k = (a.lookup k).or (c.lookup k)
  | [], c => by simp
  | (k', v') :: tl, c => by
    cases h : k == k'
    · simp [List.lookup, h, lookup_append k tl c]
    · simp [List.lookup, h]

theorem lookup_filter_keep (k : String) (a : Meta) (ha : a.lookup k = none) :
    ∀ b : Meta, (b.filter (fun kv => (a.lookup kv.1).isNone)).lookup k = b.lookup k
  | [] => by simp
  | (k', v') :: tl => by
    by_cases h : k = k'
    · subst h
      simp [List.filter_cons, List.lookup, ha, lookup_filter_keep k a ha tl]
    · have hbeq : (k == k') = false := by simpa using h
      cases hkeep : (a.lookup k').isNone
      · simp [List.filter_cons, hkeep, List.lookup, hbeq, lookup_filter_keep k a ha tl]
      · simp [List.filter_cons, hkeep, List.lookup, hbeq, lookup_filter_keep k a ha tl]

theorem lookup_defu (a b : Meta) (k : String) :
    (defu a b).lookup k = (a.lookup k).or (b.lookup k) := by
  unfold defu
  rw [lookup_append]
  cases ha : a.lookup k
  · rw [lookup_filter_keep k a ha b]
  · rfl

theorem defu_nil_right (a : Meta) : defu a [] = a := by
  simp [defu]

/-! ### Claim C8 -/

/-- Claim C8: for every path, `normalizeModuleTranspilePath` returns the
fragment of the directory-normalized path after the last vendored-directory
segment boundary, and returns the directory-normalized path unchanged when
it contains no `node_modules/` boundary. -/
theorem claim_C8_transpile_path_after_last_vendored (ext : Ext) (p : Path) :
    (hasNMOcc (getDirectory ext p) = false →
      normalizeModuleTranspilePath ext p = getDirectory ext p) ∧
    (hasNMOcc (getDirectory ext p) = true →
      ∃ a, getDirectory ext p =
          a ++ NODE_MODULES_SEP ++ normalizeModuleTranspilePath ext p ∧
        hasNMOcc (normalizeModuleTranspilePath ext p) = false) := by
  constructor
  · intro h
    unfold normalizeModuleTranspilePath splitNodeModules
    rw [splitNodeModulesAux_no_occ _ h []]
    simp
  · intro h
    simpa [normalizeModuleTranspilePath, splitNodeModules] using
      splitNodeModulesAux_occ [] (getDirectory ext p) h

/-- An oracle where every path is absolute but the stat probe throws, so
`getDirectory` leaves paths unchanged. -/

theorem claim_C8_witness :
    normalizeModuleTranspilePath extC8 "src/app.ts".toList =
      getDirectory extC8 "src/app.ts".toList ∧
    ∃ a, getDirectory extC8 "/proj/node_modules/foo/index.js".toList =
        a ++ NODE_MODULES_SEP ++
          normalizeModuleTranspilePath extC8 "/proj/node_modules/foo/index.js".toList ∧
      hasNMOcc (normalizeModuleTranspilePath extC8 "/proj/node_modules/foo/index.js".toList) = false :=
  ⟨(claim_C8_transpile_path_after_last_vendored extC8 _).1 (by decide),
   (claim_C8_transpile_path_after_last_vendored extC8 _).2 (by decide)⟩

/-! ### Claim C9 -/

/-- Claim C9: `getDirectory` returns the containing directory exactly when
the path is absolute and the stat probe reports a regular file, and returns
the path unchanged in every other case — including a failing probe, whose
error is swallowed (the embedding is a total function, so no error
escapes `getDirectory`). -/
theorem claim_C9_getDirectory_cases (ext : Ext) (p : Path) :
    (∀ st, ext.isAbsolute p = true → ext.lstat p = Except.ok st → st.isFile = true →
      getDirectory ext p = ext.dirname p) ∧
    (∀ st, ext.isAbsolute p = true → ext.lstat p = Except.ok st → st.isFile = false →
      getDirectory ext p = p) ∧
    (∀ e, ext.isAbsolute p = true → ext.lstat p = Except.error e →
      getDirectory ext p = p) ∧
    (ext.isAbsolute p = false → getDirectory ext p = p) := by
  refine ⟨?_, ?_, ?_, ?_⟩
  · intro st h1 h2 h3; simp [getDirectory, h1, h2, h3]
  · intro st h1 h2 h3; simp [getDirectory, h1, h2, h3]
  · intro e h1 h2; simp [getDirectory, h1, h2]
  · intro h1; simp [getDirectory, h1]

theorem claim_C9_witness :
    getDirectory extC9File "/proj/node_modules/foo/index.js".toList =
      "/proj/node_modules/foo".toList ∧
    getDirectory extC9Dir "/proj/node_modules/foo".toList =
      "/proj/node_modules/foo".toList ∧
    getDirectory extC9Missing "/nonexistent/abs/path".toList =
      "/nonexistent/abs/path".toList ∧
    getDirectory extBase "rel/path".toList = "rel/path".toList :=
  ⟨(claim_C9_getDirectory_cases extC9File _).1 ⟨true⟩ rfl rfl rfl,
   (claim_C9_getDirectory_cases extC9Dir _).2.1 ⟨false⟩ rfl rfl rfl,
   (claim_C9_getDirectory_cases extC9Missing _).2.2.1 2 rfl rfl,
   (claim_C9_getDirectory_cases extBase _).2.2.2 rfl⟩


/-! ### Claim C1 -/

/-- Claim C1 as stated is false at the specifier `"m"` with every candidate
failing to load: the retained error from the last load attempt (id 4, from
`requireModule`) is NOT thrown.  Because the `nuxtModule` variable still
holds the truthy specifier string, the `if (!nuxtModule && error)` guard is
skipped and the final contract check throws the TypeError carrying the
specifier instead. -/
theorem claim_C1_counterexample :
    loadNuxtModuleInstance extBase (MValue.vstr "m".toList) st0 =
      (Except.error (JsError.typeErr (MValue.vstr "m".toList)),
       [Eff.effResolvePath "m/nuxt".toList, Eff.effImport "m/nuxt".toList,
        Eff.effRequire "m/nuxt".toList,
        Eff.effResolvePath "m/module".toList, Eff.effImport "m/module".toList,
        Eff.effRequire "m/module".toList,
        Eff.effResolvePath "m".toList, Eff.effImport "m".toList,
        Eff.effRequire "m".toList]) := rfl

/-- Claim C1 amended: for every NONEMPTY string specifier none of whose three
candidates loads (each modern import rejects or resolves nullish, each legacy
require throws), `loadNuxtModuleInstance` throws the invalid-module-contract
TypeError carrying the specifier — not the retained load error: the guard
`!nuxtModule` is falsified by the still-string-valued, truthy variable, so
the retained-error branch is reachable only for a falsy final value (e.g. an
empty specifier). -/
theorem claim_C1_amended (ext : Ext) (st : NuxtState) (s s1 s2 s3 : Path)
    (q1 q2 q3 : Nat) (hs : s ≠ [])
    (hr1 : ext.resolvePath (ext.join s nuxtLit) = Except.ok s1)
    (hi1 : (∃ e, ext.importModule s1 st.modulesDir = Except.error e) ∨
      ext.importModule s1 st.modulesDir = Except.ok MValue.vnullish)
    (hq1 : ext.requireModule s1 st.modulesDir = Except.error q1)
    (hr2 : ext.resolvePath (ext.join s moduleLit) = Except.ok s2)
    (hi2 : (∃ e, ext.importModule s2 st.modulesDir = Except.error e) ∨
      ext.importModule s2 st.modulesDir = Except.ok MValue.vnullish)
    (hq2 : ext.requireModule s2 st.modulesDir = Except.error q2)
    (hr3 : ext.resolvePath s = Except.ok s3)
    (hi3 : (∃ e, ext.importModule s3 st.modulesDir = Except.error e) ∨
      ext.importModule s3 st.modulesDir = Except.ok MValue.vnullish)
    (hq3 : ext.requireModule s3 st.modulesDir = Except.error q3) :
    loadNuxtModuleInstance ext (MValue.vstr s) st =
      (Except.error (JsError.typeErr (MValue.vstr s)),
       [Eff.effResolvePath (ext.join s nuxtLit), Eff.effImport s1, Eff.effRequire s1,
        Eff.effResolvePath (ext.join s moduleLit), Eff.effImport s2, Eff.effRequire s2,
        Eff.effResolvePath s, Eff.effImport s3, Eff.effRequire s3]) := by
  have hse : s.isEmpty = false := by
    cases s with
    | nil => exact absurd rfl hs
    | cons a t => rfl
  rcases hi1 with ⟨e1, hi1⟩ | hi1 <;> rcases hi2 with ⟨e2, hi2⟩ | hi2 <;>
    rcases hi3 with ⟨e3, hi3⟩ | hi3 <;>
    simp [loadNuxtModuleInstance, runCandidates, finalizeModule, truthy,
      hr1, hr2, hr3, hi1, hi2, hi3, hq1, hq2, hq3, hse]

theorem claim_C1_witness :
    loadNuxtModuleInstance extBase (MValue.vstr "x".toList) st0 =
      (Except.error (JsError.typeErr (MValue.vstr "x".toList)),
       [Eff.effResolvePath "x/nuxt".toList, Eff.effImport "x/nuxt".toList,
        Eff.effRequire "x/nuxt".toList,
        Eff.effResolvePath "x/module".toList, Eff.effImport "x/module".toList,
        Eff.effRequire "x/module".toList,
        Eff.effResolvePath "x".toList, Eff.effImport "x".toList,
        Eff.effRequire "x".toList]) :=
  claim_C1_amended extBase st0 "x".toList "x/nuxt".toList "x/module".toList "x".toList
    4 4 4 (by decide) rfl (Or.inl ⟨3, rfl⟩) rfl rfl (Or.inl ⟨3, rfl⟩) rfl rfl
    (Or.inl ⟨3, rfl⟩) rfl

/-! ### Claim C2 -/

/-- Claim C2 as stated is false: a failing sidecar parse does NOT propagate
immediately.  At specifier `"m"`, candidate 1 loads `mfA`, its sidecar exists,
is read, and its parse throws error 5 — yet the loop falls through to
candidate 2 (visible in the trace) and the call succeeds with candidate 2's
module `mfB`. -/
theorem claim_C2_counterexample :
    loadNuxtModuleInstance extC2 (MValue.vstr "m".toList) st0 =
      (Except.ok (mfB, []),
       [Eff.effResolvePath "m/nuxt".toList, Eff.effImport "m/nuxt".toList,
        Eff.effExists "m/nuxt/module.json".toList, Eff.effRead "m/nuxt/module.json".toList,
        Eff.effResolvePath "m/module".toList, Eff.effImport "m/module".toList,
        Eff.effExists "m/module/module.json".toList]) := rfl

/-- Claim C2 amended: a sidecar parse failure is caught by the candidate
loop's catch block exactly like a load failure: it is retained as the last
error and the loop advances to the next candidate (which may succeed); it is
not immediately fatal to the install. -/
theorem claim_C2_amended (ext : Ext) (st : NuxtState) (s s1 s2 : Path)
    (f1 f2 : ModuleFn) (content : String) (e : Nat)
    (hr1 : ext.resolvePath (ext.join s nuxtLit) = Except.ok s1)
    (hi1 : ext.importModule s1 st.modulesDir = Except.ok (MValue.vfn f1))
    (hx1 : ext.existsSync (ext.join (ext.dirname s1) moduleJsonLit) = true)
    (hrd : ext.readFile (ext.join (ext.dirname s1) moduleJsonLit) = Except.ok content)
    (hj : ext.jsonParse content = Except.error e)
    (hr2 : ext.resolvePath (ext.join s moduleLit) = Except.ok s2)
    (hi2 : ext.importModule s2 st.modulesDir = Except.ok (MValue.vfn f2))
    (hx2 : ext.existsSync (ext.join (ext.dirname s2) moduleJsonLit) = false) :
    loadNuxtModuleInstance ext (MValue.vstr s) st =
      (Except.ok (f2, []),
       [Eff.effResolvePath (ext.join s nuxtLit), Eff.effImport s1,
        Eff.effExists (ext.join (ext.dirname s1) moduleJsonLit),
        Eff.effRead (ext.join (ext.dirname s1) moduleJsonLit),
        Eff.effResolvePath (ext.join s moduleLit), Eff.effImport s2,
        Eff.effExists (ext.join (ext.dirname s2) moduleJsonLit)]) := by
  simp [loadNuxtModuleInstance, runCandidates, finalizeModule, truthy,
    hr1, hi1, hx1, hrd, hj, hr2, hi2, hx2]

theorem claim_C2_witness :
    loadNuxtModuleInstance extC2w (MValue.vstr "w".toList) st0 =
      (Except.ok (mfB, []),
       [Eff.effResolvePath "w/nuxt".toList, Eff.effImport "w/nuxt".toList,
        Eff.effExists "w/nuxt/module.json".toList, Eff.effRead "w/nuxt/module.json".toList,
        Eff.effResolvePath "w/module".toList, Eff.effImport "w/module".toList,
        Eff.effExists "w/module/module.json".toList]) :=
  claim_C2_amended extC2w st0 "w".toList "w/nuxt".toList "w/module".toList mfA mfB "bad" 5
    rfl rfl rfl rfl rfl rfl rfl rfl

/-! ### Claim C3 -/

/-- Claim C3 as stated is false: when the external resolver fails for
candidate 1 of specifier `"m"`, the failure IS fatal: `loadNuxtModuleInstance`
returns the resolver's error and the trace shows the loop never advanced to
candidates 2 and 3 — even though under `extC3` every candidate would have
loaded a callable had the loop continued. -/
theorem claim_C3_counterexample :
    loadNuxtModuleInstance extC3 (MValue.vstr "m".toList) st0 =
      (Except.error (JsError.ext 7), [Eff.effResolvePath "m/nuxt".toList]) := rfl

/-- Claim C3 amended: `resolvePath` is awaited outside the candidate loop's
try block, so a resolver failure for a candidate is fatal to the whole call:
the error propagates immediately and the loop does not advance to the next
candidate. -/
theorem claim_C3_amended (ext : Ext) (st : NuxtState) (s : Path) (e : Nat)
    (h : ext.resolvePath (ext.join s nuxtLit) = Except.error e) :
    loadNuxtModuleInstance ext (MValue.vstr s) st =
      (Except.error (JsError.ext e), [Eff.effResolvePath (ext.join s nuxtLit)]) := by
  simp [loadNuxtModuleInstance, runCandidates, h]

theorem claim_C3_witness :
    loadNuxtModuleInstance extC3w (MValue.vstr "m".toList) st0 =
      (Except.error (JsError.ext 7), [Eff.effResolvePath "m/nuxt".toList]) :=
  claim_C3_amended extC3w st0 "m".toList 7 rfl


/-! ### Claim C6 -/

/-- Claim C6 as stated is false: under `extC2`, candidate 1's load succeeds
(its import yields the callable `mfA`), yet a later candidate IS attempted —
the trace of the same run contains the resolution of candidate 2 — because
the sidecar parse failure after the successful load makes the loop continue. -/
theorem claim_C6_counterexample :
    extC2.importModule "m/nuxt".toList st0.modulesDir = Except.ok (MValue.vfn mfA) ∧
    (loadNuxtModuleInstance extC2 (MValue.vstr "m".toList) st0).2.contains
      (Eff.effResolvePath "m/module".toList) = true :=
  ⟨rfl, rfl⟩

/-- Claim C6 amended: exactly three candidate paths are tried in the fixed
order `join(s,'nuxt')`, `join(s,'module')`, `s`, and the first candidate
whose load AND sidecar metadata step both succeed terminates the iteration
(later candidates are never attempted); a load success followed by a sidecar
read/parse failure does not terminate the iteration.  Below, candidate 1
fails to load, candidate 2 loads with no sidecar: the trace is exactly the
two candidates in order and candidate 3 is never resolved. -/
theorem claim_C6_amended (ext : Ext) (st : NuxtState) (s s1 s2 : Path)
    (f : ModuleFn) (q1 : Nat)
    (hr1 : ext.resolvePath (ext.join s nuxtLit) = Except.ok s1)
    (hi1 : (∃ e, ext.importModule s1 st.modulesDir = Except.error e) ∨
      ext.importModule s1 st.modulesDir = Except.ok MValue.vnullish)
    (hq1 : ext.requireModule s1 st.modulesDir = Except.error q1)
    (hr2 : ext.resolvePath (ext.join s moduleLit) = Except.ok s2)
    (hi2 : ext.importModule s2 st.modulesDir = Except.ok (MValue.vfn f))
    (hx2 : ext.existsSync (ext.join (ext.dirname s2) moduleJsonLit) = false) :
    loadNuxtModuleInstance ext (MValue.vstr s) st =
      (Except.ok (f, []),
       [Eff.effResolvePath (ext.join s nuxtLit), Eff.effImport s1, Eff.effRequire s1,
        Eff.effResolvePath (ext.join s moduleLit), Eff.effImport s2,
        Eff.effExists (ext.join (ext.dirname s2) moduleJsonLit)]) := by
  rcases hi1 with ⟨e1, hi1⟩ | hi1 <;>
    simp [loadNuxtModuleInstance, runCandidates, finalizeModule, truthy,
      hr1, hi1, hq1, hr2, hi2, hx2]

theorem claim_C6_witness :
    loadNuxtModuleInstance extC6w (MValue.vstr "m".toList) st0 =
      (Except.ok (mfA, []),
       [Eff.effResolvePath "m/nuxt".toList, Eff.effImport "m/nuxt".toList,
        Eff.effRequire "m/nuxt".toList,
        Eff.effResolvePath "m/module".toList, Eff.effImport "m/module".toList,
        Eff.effExists "m/module/module.json".toList]) :=
  claim_C6_amended extC6w st0 "m".toList "m/nuxt".toList "m/module".toList mfA 4
    rfl (Or.inl ⟨3, rfl⟩) rfl rfl rfl rfl

/-! ### Claim C10 -/

/-- Claim C10: a modern import that succeeds while resolving to a nullish
value is treated as a failed modern load: the legacy require is attempted on
the same resolved path (visible in the trace), and the legacy loader's result
(first conjunct) or error (second conjunct: the candidate fails and the loop
advances) decides the candidate's outcome. -/
theorem claim_C10_nullish_import_falls_back (ext : Ext) (st : NuxtState) (s s1 : Path)
    (hr1 : ext.resolvePath (ext.join s nuxtLit) = Except.ok s1)
    (hi1 : ext.importModule s1 st.modulesDir = Except.ok MValue.vnullish) :
    (∀ f, ext.requireModule s1 st.modulesDir = Except.ok (MValue.vfn f) →
      ext.existsSync (ext.join (ext.dirname s1) moduleJsonLit) = false →
      loadNuxtModuleInstance ext (MValue.vstr s) st =
        (Except.ok (f, []),
         [Eff.effResolvePath (ext.join s nuxtLit), Eff.effImport s1, Eff.effRequire s1,
          Eff.effExists (ext.join (ext.dirname s1) moduleJsonLit)])) ∧
    (∀ e s2 f, ext.requireModule s1 st.modulesDir = Except.error e →
      ext.resolvePath (ext.join s moduleLit) = Except.ok s2 →
      ext.importModule s2 st.modulesDir = Except.ok (MValue.vfn f) →
      ext.existsSync (ext.join (ext.dirname s2) moduleJsonLit) = false →
      loadNuxtModuleInstance ext (MValue.vstr s) st =
        (Except.ok (f, []),
         [Eff.effResolvePath (ext.join s nuxtLit), Eff.effImport s1, Eff.effRequire s1,
          Eff.effResolvePath (ext.join s moduleLit), Eff.effImport s2,
          Eff.effExists (ext.join (ext.dirname s2) moduleJsonLit)])) := by
  constructor
  · intro f hq hx
    simp [loadNuxtModuleInstance, runCandidates, finalizeModule, truthy,
      hr1, hi1, hq, hx]
  · intro e s2 f hq hr2 hi2 hx2
    simp [loadNuxtModuleInstance, runCandidates, finalizeModule, truthy,
      hr1, hi1, hq, hr2, hi2, hx2]

theorem claim_C10_witness :
    loadNuxtModuleInstance extC10a (MValue.vstr "m".toList) st0 =
      (Except.ok (mfA, []),
       [Eff.effResolvePath "m/nuxt".toList, Eff.effImport "m/nuxt".toList,
        Eff.effRequire "m/nuxt".toList, Eff.effExists "m/nuxt/module.json".toList]) ∧
    loadNuxtModuleInstance extC10b (MValue.vstr "m".toList) st0 =
      (Except.ok (mfA, []),
       [Eff.effResolvePath "m/nuxt".toList, Eff.effImport "m/nuxt".toList,
        Eff.effRequire "m/nuxt".toList,
        Eff.effResolvePath "m/module".toList, Eff.effImport "m/module".toList,
        Eff.effExists "m/module/module.json".toList]) :=
  ⟨(claim_C10_nullish_import_falls_back extC10a st0 "m".toList "m/nuxt".toList
      rfl rfl).1 mfA rfl rfl,
   (claim_C10_nullish_import_falls_back extC10b st0 "m".toList "m/nuxt".toList
      rfl rfl).2 9 "m/module".toList mfA rfl rfl rfl rfl⟩


/-! ### Lemmas and claims about `installModule` -/

theorem getLastD_concat {α : Type} (l : List α) (a d : α) :
    (l ++ [a]).getLastD d = a := by
  rw [List.getLastD_eq_getLast?, List.getLast?_concat]
  rfl

/-- When the callable returns an object result, `installModule` appends
exactly one ledger record — `meta = defu(getMeta?.(), buildTimeModuleMeta)`,
the result's timings, and the alias-resolved entry path for string
specifiers — on top of a state whose ledger is the one the callable
returned. -/
theorem installModule_robj (ext : Ext) (input : MValue) (opts : Opts) (st : NuxtState)
    (fn : ModuleFn) (btm : Meta) (tr : List Eff) (t : Option Nat) (st1 : NuxtState)
    (h1 : loadNuxtModuleInstance ext input st = (Except.ok (fn, btm), tr))
    (h2 : fn.run st.isNuxt2 opts st = Except.ok (CallResult.robj t, st1)) :
    ∃ st2 : NuxtState, st2.installedModules = st1.installedModules ∧
      installModule ext input opts st =
        (Except.ok { st2 with
            installedModules := some ((st1.installedModules.getD []) ++
              [⟨defu (fn.getMeta.getD []) btm, t,
                match input with
                | MValue.vstr s => some (ext.resolveAlias s)
                | _ => none⟩]) }, tr) := by
  cases input with
  | vstr s =>
    by_cases hd1 : getDirectory ext s = s
    · refine ⟨{ st1 with
          transpile := st1.transpile ++ [normalizeModuleTranspilePath ext s] }, rfl, ?_⟩
      simp [installModule, h1, h2, hd1]
    · by_cases hd2 : getDirectory ext s ∈ localLayerModuleDirs ext st
      · refine ⟨{ st1 with
            transpile := st1.transpile ++ [normalizeModuleTranspilePath ext s] }, rfl, ?_⟩
        simp [installModule, h1, h2, hd1, hd2]
      · refine ⟨{ st1 with
            transpile := st1.transpile ++ [normalizeModuleTranspilePath ext s]
            modulesDir := st1.modulesDir ++ [getDirectory ext s] }, rfl, ?_⟩
        simp [installModule, h1, h2, hd1, hd2]
  | vnullish => exact ⟨st1, rfl, by simp [installModule, h1, h2]⟩
  | vfn g => exact ⟨st1, rfl, by simp [installModule, h1, h2]⟩
  | vmisc b => exact ⟨st1, rfl, by simp [installModule, h1, h2]⟩

/-! ### Claim C4 -/

/-- Claim C4: when the loaded callable returns exactly `false` (and itself
leaves the build context `st` untouched), `installModule` returns normally
with the context unchanged: no ledger record is appended, nothing is pushed
to the transpile list, and nothing is pushed to the module search-path
list (the returned state is `st` itself). -/
theorem claim_C4_false_abort_leaves_context_unchanged (ext : Ext) (input : MValue)
    (opts : Opts) (st : NuxtState) (fn : ModuleFn) (btm : Meta) (tr : List Eff)
    (h1 : loadNuxtModuleInstance ext input st = (Except.ok (fn, btm), tr))
    (h2 : fn.run st.isNuxt2 opts st = Except.ok (CallResult.rfalse, st)) :
    installModule ext input opts st = (Except.ok st, tr) := by
  simp [installModule, h1, h2]

theorem claim_C4_witness :
    installModule extBase (MValue.vfn mfFalse) 0 st0 = (Except.ok st0, []) :=
  claim_C4_false_abort_leaves_context_unchanged extBase (MValue.vfn mfFalse) 0 st0
    mfFalse [] [] rfl rfl

/-! ### Claim C5 -/

/-- Claim C5: every ledger record written by a successful install carries
`meta` merged right-biased toward the callable's own `getMeta()` output: for
every key, the merged value is the runtime value when present, and the
sidecar build-time value otherwise. -/
theorem claim_C5_meta_merge_runtime_wins (ext : Ext) (input : MValue) (opts : Opts)
    (st : NuxtState) (fn : ModuleFn) (btm rm : Meta) (tr : List Eff)
    (t : Option Nat) (st1 : NuxtState)
    (h1 : loadNuxtModuleInstance ext input st = (Except.ok (fn, btm), tr))
    (hm : fn.getMeta = some rm)
    (h2 : fn.run st.isNuxt2 opts st = Except.ok (CallResult.robj t, st1)) :
    ∃ stOut, installModule ext input opts st = (Except.ok stOut, tr) ∧
      ∃ L : List InstalledRecord, stOut.installedModules = some L ∧ L ≠ [] ∧
        ∀ k : String, ((L.getLastD ⟨[], none, none⟩).meta).lookup k =
          (rm.lookup k).or (btm.lookup k) := by
  obtain ⟨st2, hst2, hinst⟩ := installModule_robj ext input opts st fn btm tr t st1 h1 h2
  refine ⟨_, hinst, _, rfl, by simp, ?_⟩
  intro k
  rw [getLastD_concat]
  simp [hm, lookup_defu]

theorem claim_C5_witness :
    ∃ stOut, installModule extC5 (MValue.vstr "m".toList) 0 st0 =
        (Except.ok stOut,
         [Eff.effResolvePath "m/nuxt".toList, Eff.effImport "m/nuxt".toList,
          Eff.effExists "m/nuxt/module.json".toList,
          Eff.effRead "m/nuxt/module.json".toList]) ∧
      ∃ L : List InstalledRecord, stOut.installedModules = some L ∧ L ≠ [] ∧
        ∀ k : String, ((L.getLastD ⟨[], none, none⟩).meta).lookup k =
          ((([("b", 3)] : Meta)).lookup k).or ((([("a", 1), ("b", 2)] : Meta)).lookup k) :=
  claim_C5_meta_merge_runtime_wins extC5 (MValue.vstr "m".toList) 0 st0 mfC5
    [("a", 1), ("b", 2)] [("b", 3)]
    [Eff.effResolvePath "m/nuxt".toList, Eff.effImport "m/nuxt".toList,
     Eff.effExists "m/nuxt/module.json".toList, Eff.effRead "m/nuxt/module.json".toList]
    none st0 rfl rfl rfl

/-! ### Claim C7 -/

/-- Claim C7: a reference that is already a callable is returned unchanged
with empty build-time metadata and an empty effect trace (no path
resolution, no load attempt, no filesystem probe or read); the resulting
ledger record's `meta` is exactly the callable's own `getMeta()` output
(the merge with the empty build-time metadata), and its `entryPath` is
unset. -/
theorem claim_C7_callable_reference_bypasses_fs (ext : Ext) (f : ModuleFn)
    (st : NuxtState) (opts : Opts) :
    loadNuxtModuleInstance ext (MValue.vfn f) st = (Except.ok (f, []), []) ∧
    (∀ t st1, f.run st.isNuxt2 opts st = Except.ok (CallResult.robj t, st1) →
      installModule ext (MValue.vfn f) opts st =
        (Except.ok { st1 with
            installedModules := some ((st1.installedModules.getD []) ++
              [⟨f.getMeta.getD [], t, none⟩]) }, [])) := by
  constructor
  · rfl
  · intro t st1 h2
    simp [installModule, loadNuxtModuleInstance, finalizeModule, h2, defu_nil_right]

theorem claim_C7_witness :
    loadNuxtModuleInstance extBase (MValue.vfn mfB) st0 = (Except.ok (mfB, []), []) ∧
    installModule extBase (MValue.vfn mfB) 0 st0 =
      (Except.ok { st0 with installedModules := some [⟨[("b", 3)], some 5, none⟩] }, []) :=
  ⟨(claim_C7_callable_reference_bypasses_fs extBase mfB st0 0).1,
   (claim_C7_callable_reference_bypasses_fs extBase mfB st0 0).2 (some 5) st0 rfl⟩

end NuxtKit
